import Mathlib

/-!
Verification of the VSM exact-string field searcher
(`vsm/src/vespa/vsm/searcher/utf8exactstringfieldsearcher.cpp`) against its
natural-language specification.

The data model (QueryTerm, MatchRecord, FieldRef) follows the spec's §3.
`matchTerms`, `matchTerm` and `duplicate` are translated from the source file.
The exact-match primitive `matchTermExact` and the codepoint decoder are
declared in headers outside this repository snapshot, so they are modelled
from the spec (§4.1, §4.2, §8); their doc comments say so.
-/

namespace Vespa

/-- A Unicode codepoint, represented as a natural number. -/
abbrev Codepoint := Nat

/-- A `FieldRef`: a read-only view of one field value, i.e. its raw byte
buffer (each byte a natural number < 256 in intended use). -/
abbrev FieldRef := List Nat

/-- A query term (spec §3): unique id, wanted text as a codepoint sequence,
and a minimum-field-size threshold.  The match-mode flag is omitted because
this development only treats the exact searcher. -/
structure QueryTerm where
  id : Nat
  text : List Codepoint
  minFieldSize : Nat
  deriving Repr, DecidableEq

/-- A match record (spec §3): evidence that a term matched at a position in a
field value. -/
structure MatchRecord where
  term_id : Nat
  value_index : Nat
  byte_offset : Nat
  codepoint_length : Nat
  deriving Repr, DecidableEq

/-- Is `b` a UTF-8 continuation byte (`10xxxxxx`)? -/
def isCont (b : Nat) : Bool := 128 ≤ b && b < 192

/-- Modelled from the spec: `CodepointDecoder` (§4.1), which is not part of
this repository snapshot.  Given a byte buffer it produces the finite sequence
of `(codepoint, byte_offset, byte_length)` triples.  On an invalid or
truncated UTF-8 sequence it yields the replacement codepoint U+FFFD (65533)
for the offending lead byte and advances one byte, so scanning continues.
`fuel` decreases by one per emitted triple while at least one byte is
consumed, so `fuel = length of the buffer` always suffices. -/
def utf8DecodeAux : Nat → Nat → List Nat → List (Codepoint × Nat × Nat)
  | 0, _, _ => []
  | _ + 1, _, [] => []
  | fuel + 1, off, b :: tl =>
    if b < 128 then
      (b, off, 1) :: utf8DecodeAux fuel (off + 1) tl
    else if b < 192 then
      (65533, off, 1) :: utf8DecodeAux fuel (off + 1) tl
    else if b < 224 then
      match tl with
      | b1 :: tl1 =>
        if isCont b1 then
          ((b % 32) * 64 + b1 % 64, off, 2) :: utf8DecodeAux fuel (off + 2) tl1
        else
          (65533, off, 1) :: utf8DecodeAux fuel (off + 1) tl
      | [] => (65533, off, 1) :: utf8DecodeAux fuel (off + 1) tl
    else if b < 240 then
      match tl with
      | b1 :: b2 :: tl2 =>
        if isCont b1 && isCont b2 then
          ((b % 16) * 4096 + (b1 % 64) * 64 + b2 % 64, off, 3) ::
            utf8DecodeAux fuel (off + 3) tl2
        else
          (65533, off, 1) :: utf8DecodeAux fuel (off + 1) tl
      | _ => (65533, off, 1) :: utf8DecodeAux fuel (off + 1) tl
    else if b < 248 then
      match tl with
      | b1 :: b2 :: b3 :: tl3 =>
        if isCont b1 && isCont b2 && isCont b3 then
          ((b % 8) * 262144 + (b1 % 64) * 4096 + (b2 % 64) * 64 + b3 % 64, off, 4) ::
            utf8DecodeAux fuel (off + 4) tl3
        else
          (65533, off, 1) :: utf8DecodeAux fuel (off + 1) tl
      | _ => (65533, off, 1) :: utf8DecodeAux fuel (off + 1) tl
    else
      (65533, off, 1) :: utf8DecodeAux fuel (off + 1) tl

/-- Decode a whole byte buffer from offset 0. -/
def utf8Decode (bs : List Nat) : List (Codepoint × Nat × Nat) :=
  utf8DecodeAux bs.length 0 bs

/-- The codepoint sequence of a field value. -/
def decodeCps (f : FieldRef) : List Codepoint :=
  (utf8Decode f).map (fun t => t.1)

/-- Modelled from the spec: the exact-match primitive
`UTF8StringFieldSearcherBase::matchTermExact`, declared in the searcher's
header but not part of this repository snapshot.  Per §4.2 (ExactSearcher)
and the §8 concrete scenario it performs whole-value exact matching: one
`MatchRecord` at byte offset 0 covering the whole value exactly when the
decoded codepoint sequence of the value equals the term's text; it reads the
term and the field but mutates neither (§4.2 side-effect contract). -/
def matchTermExact (vidx : Nat) (f : FieldRef) (qt : QueryTerm) : List MatchRecord :=
  if decodeCps f = qt.text then
    [⟨qt.id, vidx, 0, (decodeCps f).length⟩]
  else
    []

/-- The loop body of `UTF8ExactStringFieldSearcher::matchTerms`
(utf8exactstringfieldsearcher.cpp lines 20-23): iterate the registered query
terms `_qtl` in order, calling `matchTermExact` on each; the caller-supplied
recorder `recs` accumulates the produced records. -/
def matchTermsLoop (vidx : Nat) (f : FieldRef) :
    List QueryTerm → List MatchRecord → List MatchRecord
  | [], recs => recs
  | qt :: rest, recs => matchTermsLoop vidx f rest (recs ++ matchTermExact vidx f qt)

/-- Embedding of `UTF8ExactStringFieldSearcher::matchTerms(f, mintsz)`
(utf8exactstringfieldsearcher.cpp lines 16-25): the `mintsz` parameter is
discarded (`(void) mintsz;`), every term in `_qtl` is matched against `f`
via `matchTermExact`, and the constant 1 is returned.  The recorder is
passed explicitly; the result pairs the recorder after the call with the
returned `size_t`. -/
def matchTerms (vidx : Nat) (f : FieldRef) (mintsz : Nat) (qtl : List QueryTerm)
    (recs : List MatchRecord) : List MatchRecord × Nat :=
  (matchTermsLoop vidx f qtl recs, 1)

/-- Embedding of `UTF8ExactStringFieldSearcher::matchTerm(f, qt)`
(utf8exactstringfieldsearcher.cpp lines 27-31): returns `matchTermExact(f, qt)`.
The recorder gains that primitive's records; the returned `size_t` is the
primitive's match count. -/
def matchTerm (vidx : Nat) (f : FieldRef) (qt : QueryTerm)
    (recs : List MatchRecord) : List MatchRecord × Nat :=
  (recs ++ matchTermExact vidx f qt, (matchTermExact vidx f qt).length)

/-- The searcher's mutable environment during a `matchTerms` call: the
registered term list `_qtl` (the terms themselves) and the recorder contents. -/
structure SearcherState where
  qtl : List QueryTerm
  recs : List MatchRecord
  deriving Repr, DecidableEq

/-- The same `matchTerms` call as a transition on the full state, also handing back the
field view: the C++ call receives `f` by reference and `_qtl` through `this`,
so any mutation of either would show up in these components. -/
def matchTermsFull (s : SearcherState) (f : FieldRef) (mintsz : Nat) (vidx : Nat) :
    SearcherState × FieldRef × Nat :=
  (⟨s.qtl, matchTermsLoop vidx f s.qtl s.recs⟩, f, 1)

/-- The searcher object itself, as copied by `duplicate`: its state is the
registered term list. -/
structure UTF8ExactStringFieldSearcher where
  qtl : List QueryTerm
  deriving Repr, DecidableEq

/-- Embedding of `UTF8ExactStringFieldSearcher::duplicate()`
(utf8exactstringfieldsearcher.cpp lines 10-14): `make_unique<...>(*this)`
allocates a fresh object copy-constructed from the original.  The heap is a
list of live searcher objects; `duplicate` on the object at index `i` appends
the copy and returns the index of the new object. -/
def duplicate (heap : List UTF8ExactStringFieldSearcher) (i : Nat) :
    List UTF8ExactStringFieldSearcher × Nat :=
  (heap ++ [heap.getD i ⟨[]⟩], heap.length)

/-- Modelled from the spec: the Dispatcher's per-value iteration (§4.3), not
part of this repository snapshot: invoke the searcher's `matchTerms` on each
value in order (value index `i` counting up), concatenating the records. -/
def evaluateFrom (qtl : List QueryTerm) (i : Nat) : List FieldRef → List MatchRecord
  | [] => []
  | v :: vs => matchTermsLoop i v qtl [] ++ evaluateFrom qtl (i + 1) vs

/-- Dispatcher evaluation of a multi-valued field from value index 0. -/
def evaluate (values : List FieldRef) (qtl : List QueryTerm) : List MatchRecord :=
  evaluateFrom qtl 0 values

/-- The ASCII bytes `pre`, decoded: one triple per byte. -/
def asciiTriples (off : Nat) : List Nat → List (Codepoint × Nat × Nat)
  | [] => []
  | b :: tl => (b, off, 1) :: asciiTriples (off + 1) tl

/-! ### Helper lemmas about the loop and the decoder -/

/-- The loop only appends to the recorder: the records it produces do not
depend on the recorder's prior contents. -/
theorem matchTermsLoop_eq_append (vidx : Nat) (f : FieldRef) :
    ∀ (qtl : List QueryTerm) (recs : List MatchRecord),
      matchTermsLoop vidx f qtl recs = recs ++ matchTermsLoop vidx f qtl [] := by
  intro qtl
  induction qtl with
  | nil => intro recs; simp [matchTermsLoop]
  | cons qt rest ih =>
      intro recs
      simp only [matchTermsLoop]
      rw [ih (recs ++ matchTermExact vidx f qt), ih ([] ++ matchTermExact vidx f qt)]
      simp

/-- The loop from an empty recorder is the concatenation of the per-term
primitive results, in term order. -/
theorem matchTermsLoop_nil_eq_join (vidx : Nat) (f : FieldRef) :
    ∀ qtl : List QueryTerm,
      matchTermsLoop vidx f qtl [] = (qtl.map (matchTermExact vidx f)).flatten := by
  intro qtl
  induction qtl with
  | nil => simp [matchTermsLoop]
  | cons qt rest ih =>
      simp only [matchTermsLoop, List.map_cons, List.flatten]
      rw [matchTermsLoop_eq_append vidx f rest ([] ++ matchTermExact vidx f qt), ih]
      simp

/-- The loop from an empty recorder produces exactly one record per matching
term, in term order. -/
theorem matchTermsLoop_nil_eq_filterMap (vidx : Nat) (f : FieldRef)
    (qtl : List QueryTerm) :
    matchTermsLoop vidx f qtl [] =
      qtl.filterMap (fun qt =>
        if decodeCps f = qt.text then
          some ⟨qt.id, vidx, 0, (decodeCps f).length⟩
        else
          none) := by
  rw [matchTermsLoop_nil_eq_join]
  induction qtl with
  | nil => simp
  | cons qt rest ih =>
      by_cases h : decodeCps f = qt.text <;>
        simp [List.filterMap_cons, matchTermExact, h, ih]

/-- Decoding splits at an all-ASCII segment: the segment decodes byte by byte
and decoding continues after it, given enough fuel. -/
theorem utf8DecodeAux_ascii_append :
    ∀ (pre : List Nat) (rest : List Nat) (off fuel : Nat),
      (∀ b ∈ pre, b < 128) → pre.length + rest.length ≤ fuel →
      utf8DecodeAux fuel off (pre ++ rest) =
        asciiTriples off pre ++
          utf8DecodeAux (fuel - pre.length) (off + pre.length) rest := by
  intro pre
  induction pre with
  | nil => intro rest off fuel _ _; simp [asciiTriples]
  | cons b tl ih =>
      intro rest off fuel hascii hfuel
      match fuel with
      | 0 => simp at hfuel
      | fuel + 1 =>
          have hb : b < 128 := hascii b (List.mem_cons_self b tl)
          have htl : ∀ x ∈ tl, x < 128 := fun x hx => hascii x (List.mem_cons_of_mem b hx)
          have hfuel2 : tl.length + rest.length ≤ fuel := by
            simp only [List.length_cons] at hfuel; omega
          simp only [List.cons_append, utf8DecodeAux, if_pos hb, asciiTriples,
            List.append_eq]
          rw [ih rest (off + 1) fuel htl hfuel2]
          simp only [List.length_cons]
          have h1 : fuel + 1 - (tl.length + 1) = fuel - tl.length := by omega
          have h2 : off + 1 + tl.length = off + (tl.length + 1) := by omega
          rw [h1, h2]

/-- The dispatcher over `vs ++ [bad]`: the records of the earlier values are
unchanged and the final value contributes its own records at the end. -/
theorem evaluateFrom_append_single (qtl : List QueryTerm) (bad : FieldRef) :
    ∀ (vs : List FieldRef) (i : Nat),
      evaluateFrom qtl i (vs ++ [bad]) =
        evaluateFrom qtl i vs ++ matchTermsLoop (i + vs.length) bad qtl [] := by
  intro vs
  induction vs with
  | nil => intro i; simp [evaluateFrom]
  | cons v vstl ih =>
      intro i
      simp only [List.cons_append, evaluateFrom, List.append_eq]
      rw [ih (i + 1)]
      simp only [List.length_cons, List.append_assoc]
      have : i + 1 + vstl.length = i + (vstl.length + 1) := by omega
      rw [this]

/-- Replace a term's minimum-field-size threshold, keeping id and text. -/
def setMinFieldSize (k : Nat) (qt : QueryTerm) : QueryTerm :=
  ⟨qt.id, qt.text, k⟩

theorem matchTermExact_setMinFieldSize (vidx : Nat) (f : FieldRef) (k : Nat)
    (qt : QueryTerm) :
    matchTermExact vidx f (setMinFieldSize k qt) = matchTermExact vidx f qt := rfl

theorem matchTermsLoop_setMinFieldSize (vidx : Nat) (f : FieldRef) (k : Nat) :
    ∀ (qtl : List QueryTerm) (recs : List MatchRecord),
      matchTermsLoop vidx f (qtl.map (setMinFieldSize k)) recs =
        matchTermsLoop vidx f qtl recs := by
  intro qtl
  induction qtl with
  | nil => intro recs; rfl
  | cons qt rest ih =>
      intro recs
      simp only [List.map_cons, matchTermsLoop, matchTermExact_setMinFieldSize]
      exact ih (recs ++ matchTermExact vidx f qt)

theorem matchTermsLoop_empty_field (vidx mintsz : Nat) :
    ∀ (qtl : List QueryTerm) (recs : List MatchRecord),
      (∀ qt ∈ qtl, qt.text ≠ []) →
      matchTermsLoop vidx ([] : FieldRef) qtl recs = recs := by
  intro qtl
  induction qtl with
  | nil => intro recs _; rfl
  | cons qt rest ih =>
      intro recs h
      have hqt : qt.text ≠ [] := h qt (List.mem_cons_self qt rest)
      have hE : matchTermExact vidx ([] : FieldRef) qt = [] := by
        have hnil : decodeCps ([] : FieldRef) = [] := rfl
        simp only [matchTermExact, hnil]
        exact if_neg (fun hEq => hqt hEq.symm)
      simp only [matchTermsLoop, hE, List.append_nil]
      exact ih recs (fun x hx => h x (List.mem_cons_of_mem qt hx))

/-! ### The claims -/

/-- Claim C1, counterexample: the skip rule does not hold.  The term has
`min_field_size = 5`, the value `"ab"` has 2 codepoints (shorter than 5), the
call is even made with `mintsz = 5`, yet `matchTerms` produces a
`MatchRecord` for the term against the value. -/
theorem C1_skip_rule_cex :
    (decodeCps [97, 98]).length < 5 ∧
    (matchTerms 0 [97, 98] 5 [⟨1, [97, 98], 5⟩] []).1 =
      [⟨1, 0, 0, 2⟩] := by decide

/-- Claim C1, amended: `matchTerms` never skips a value on size grounds: the
`mintsz` argument is discarded and a term's `min_field_size` has no effect on
the outcome, so a value shorter than `min_field_size` is still matched (and
produces a `MatchRecord` whenever it equals the term's text). -/
theorem C1_min_size_ignored (vidx : Nat) (f : FieldRef) (m1 m2 k : Nat)
    (qtl : List QueryTerm) (recs : List MatchRecord) :
    matchTerms vidx f m1 qtl recs = matchTerms vidx f m2 qtl recs ∧
    matchTerms vidx f m1 (qtl.map (setMinFieldSize k)) recs =
      matchTerms vidx f m1 qtl recs := by
  refine ⟨rfl, ?_⟩
  simp only [matchTerms, Prod.mk.injEq]
  exact ⟨matchTermsLoop_setMinFieldSize vidx f k qtl recs, trivial⟩

/-- Claim C2: `matchTerms` evaluates each term independently against the
value, in exactly the order the terms appear in the term set, applying the
exact-match primitive once per term: the recorder after the call is the
recorder before it followed by the concatenation of the per-term
`matchTermExact` results in term order. -/
theorem C2_terms_in_order (vidx : Nat) (f : FieldRef) (mintsz : Nat)
    (qtl : List QueryTerm) (recs : List MatchRecord) :
    (matchTerms vidx f mintsz qtl recs).1 =
      recs ++ (qtl.map (matchTermExact vidx f)).flatten := by
  simp only [matchTerms]
  rw [matchTermsLoop_eq_append, matchTermsLoop_nil_eq_join]

/-- Claim C3, counterexample: ordering by ascending term id does not hold.
With the term set `[{id 2, "a"}, {id 1, "a"}]` and value `"a"`, both terms
match at byte offset 0 and both records are emitted, but the ids come out as
`[2, 1]` — the order of the term set, not ascending id order. -/
theorem C3_tie_order_cex :
    ((matchTerms 0 [97] 0 [⟨2, [97], 0⟩, ⟨1, [97], 0⟩] []).1.map
        (fun r => r.term_id) = [2, 1]) ∧
    ((matchTerms 0 [97] 0 [⟨2, [97], 0⟩, ⟨1, [97], 0⟩] []).1.map
        (fun r => r.byte_offset) = [0, 0]) ∧
    (((matchTerms 0 [97] 0 [⟨2, [97], 0⟩, ⟨1, [97], 0⟩] []).1.map
        (fun r => r.term_id)).getD 0 0 >
      ((matchTerms 0 [97] 0 [⟨2, [97], 0⟩, ⟨1, [97], 0⟩] []).1.map
        (fun r => r.term_id)).getD 1 0) := by decide

/-- Claim C3, amended: when several terms with different ids match the same
value at the same byte offset, all of their records are emitted — exactly one
record per matching term — ordered by the terms' positions in the term set
(not by term id). -/
theorem C3_tie_order_amended (vidx : Nat) (f : FieldRef) (mintsz : Nat)
    (qtl : List QueryTerm) (recs : List MatchRecord) :
    (matchTerms vidx f mintsz qtl recs).1 =
      recs ++ qtl.filterMap (fun qt =>
        if decodeCps f = qt.text then
          some ⟨qt.id, vidx, 0, (decodeCps f).length⟩
        else
          none) := by
  simp only [matchTerms]
  rw [matchTermsLoop_eq_append, matchTermsLoop_nil_eq_filterMap]

/-- Claim C4: `matchTerms` is deterministic and idempotent: the records a
call produces (the part of the recorder beyond its prior contents) depend
only on the value and the term set, so two invocations on the same
`(value, term_set)` produce identical record sequences, order included. -/
theorem C4_deterministic (vidx : Nat) (f : FieldRef) (mintsz : Nat)
    (qtl : List QueryTerm) (r1 r2 : List MatchRecord) :
    ((matchTerms vidx f mintsz qtl r1).1).drop r1.length =
      ((matchTerms vidx f mintsz qtl r2).1).drop r2.length := by
  simp only [matchTerms]
  rw [matchTermsLoop_eq_append vidx f qtl r1, matchTermsLoop_eq_append vidx f qtl r2,
    List.drop_left, List.drop_left]

/-- Claim C5: the only side effect of `matchTerm`/`matchTerms` is writing
match results into the caller-supplied recorder: the registered query terms
and the field view come back unchanged, and the recorder's prior contents are
preserved as a prefix by both entry points (records are only appended). -/
theorem C5_frame (s : SearcherState) (f : FieldRef) (mintsz vidx : Nat)
    (qt : QueryTerm) (recs : List MatchRecord) :
    (matchTermsFull s f mintsz vidx).1.qtl = s.qtl ∧
    (matchTermsFull s f mintsz vidx).2.1 = f ∧
    (matchTermsFull s f mintsz vidx).1.recs.take s.recs.length = s.recs ∧
    (matchTerm vidx f qt recs).1.take recs.length = recs := by
  refine ⟨rfl, rfl, ?_, ?_⟩
  · simp only [matchTermsFull]
    rw [matchTermsLoop_eq_append, List.take_left]
  · simp only [matchTerm]
    rw [List.take_left]

/-- Claim C6: a field value whose buffer is empty yields zero match records
for every term (whose text is non-empty, as the spec's term invariant
guarantees), and the call returns normally with its usual result. -/
theorem C6_empty_value (vidx mintsz : Nat) (qtl : List QueryTerm)
    (recs : List MatchRecord) (h : ∀ qt ∈ qtl, qt.text ≠ []) :
    matchTerms vidx ([] : FieldRef) mintsz qtl recs = (recs, 1) := by
  simp only [matchTerms, Prod.mk.injEq]
  exact ⟨matchTermsLoop_empty_field vidx mintsz qtl recs h, trivial⟩

/-- Witness for C6 at a concrete input: one term `"a"`, empty value buffer,
empty recorder: no records are produced. -/
theorem C6_empty_value_witness :
    (∀ qt ∈ ([⟨1, [97], 0⟩] : List QueryTerm), qt.text ≠ []) ∧
    matchTerms 0 ([] : FieldRef) 0 [⟨1, [97], 0⟩] [] = ([], 1) :=
  ⟨by decide, C6_empty_value 0 0 [⟨1, [97], 0⟩] [] (by decide)⟩

/-- Claim C7: malformed input does not abort matching.  A buffer made of a
well-formed (here ASCII) prefix followed by a truncated multi-byte sequence
(a lone lead byte 0xE2 = 226) decodes cleanly: the prefix decodes byte by
byte, and the truncated sequence becomes the replacement codepoint U+FFFD;
and over a multi-valued field the dispatcher's scan of earlier values is
untouched by a malformed final value, so matches found before the malformed
position are still recorded and the call terminates normally. -/
theorem C7_malformed_robust (pre : List Nat) (bad : FieldRef)
    (vs : List FieldRef) (qtl : List QueryTerm) (i : Nat)
    (h : ∀ b ∈ pre, b < 128) :
    utf8Decode (pre ++ [226]) = asciiTriples 0 pre ++ [(65533, pre.length, 1)] ∧
    evaluateFrom qtl i (vs ++ [bad]) =
      evaluateFrom qtl i vs ++ matchTermsLoop (i + vs.length) bad qtl [] := by
  constructor
  · unfold utf8Decode
    have hfuel : pre.length + ([226] : List Nat).length ≤ (pre ++ [226]).length := by
      simp
    have hsplit := utf8DecodeAux_ascii_append pre [226] 0 ((pre ++ [226]).length) h hfuel
    rw [hsplit]
    have hlen : (pre ++ [226]).length - pre.length = 1 := by simp
    have h226 : ∀ off : Nat, utf8DecodeAux 1 off [226] = [(65533, off, 1)] :=
      fun off => rfl
    rw [hlen, h226]
    simp
  · exact evaluateFrom_append_single qtl bad vs i

/-- Witness for C7 at a concrete input: prefix `"hi"`, malformed last value
`"a"` followed by a lone lead byte; the match in the earlier value `"a"` is
still recorded. -/
theorem C7_malformed_robust_witness :
    (∀ b ∈ [104, 105], b < 128) ∧
    (utf8Decode ([104, 105] ++ [226]) =
        asciiTriples 0 [104, 105] ++ [(65533, 2, 1)] ∧
      evaluateFrom [⟨1, [97], 0⟩] 0 ([[97]] ++ [[97, 226]]) =
        evaluateFrom [⟨1, [97], 0⟩] 0 [[97]] ++
          matchTermsLoop (0 + 1) [97, 226] [⟨1, [97], 0⟩] []) :=
  ⟨by decide,
    C7_malformed_robust [104, 105] [97, 226] [[97]] [⟨1, [97], 0⟩] 0 (by decide)⟩

/-- Claim C8: `matchTerms` returns the constant 1 for every field reference,
every `mintsz` and every term list (the empty list included); the return
value never reflects how many terms matched. -/
theorem C8_returns_one (vidx : Nat) (f : FieldRef) (mintsz : Nat)
    (qtl : List QueryTerm) (recs : List MatchRecord) :
    (matchTerms vidx f mintsz qtl recs).2 = 1 := rfl

/-- Claim C9: the single-term entry point `matchTerm` returns exactly the
result of the exact-match primitive `matchTermExact` (its records appended to
the recorder, its count returned), and matching one term through `matchTerm`
writes the same records into the recorder as matching it through
`matchTerms` with a singleton term list. -/
theorem C9_matchTerm_refines (vidx : Nat) (f : FieldRef) (mintsz : Nat)
    (qt : QueryTerm) (recs : List MatchRecord) :
    matchTerm vidx f qt recs =
      (recs ++ matchTermExact vidx f qt, (matchTermExact vidx f qt).length) ∧
    (matchTerm vidx f qt recs).1 = (matchTerms vidx f mintsz [qt] recs).1 :=
  ⟨rfl, rfl⟩

/-- Claim C10: `duplicate` returns a distinct, newly allocated searcher whose
state equals the original's (copy construction), and the original is left in
place unchanged: on a heap of live searchers, the new index differs from the
original's, the heap grew by one, the new slot holds a copy of the original
object, and the original slot still holds it too. -/
theorem C10_duplicate_copy (heap : List UTF8ExactStringFieldSearcher) (i : Nat)
    (h : i < heap.length) :
    (duplicate heap i).2 ≠ i ∧
    (duplicate heap i).1.length = heap.length + 1 ∧
    (duplicate heap i).1[(duplicate heap i).2]? = heap[i]? ∧
    (duplicate heap i).1[i]? = heap[i]? := by
  refine ⟨?_, by simp [duplicate], ?_, ?_⟩
  · simp only [duplicate]
    exact Nat.ne_of_gt h
  · simp only [duplicate]
    rw [List.getElem?_append_right (Nat.le_refl heap.length)]
    simp [List.getD_eq_getElem heap ⟨[]⟩ h, List.getElem?_eq_getElem h]
  · simp only [duplicate]
    rw [List.getElem?_append, if_pos h]

/-- Witness for C10 at a concrete input: a one-element heap; duplicating the
searcher at index 0 yields index 1 holding an equal copy, with slot 0
untouched. -/
theorem C10_duplicate_copy_witness :
    0 < ([⟨[⟨1, [97], 0⟩]⟩] : List UTF8ExactStringFieldSearcher).length ∧
    ((duplicate [⟨[⟨1, [97], 0⟩]⟩] 0).2 ≠ 0 ∧
      (duplicate [⟨[⟨1, [97], 0⟩]⟩] 0).1.length =
        ([⟨[⟨1, [97], 0⟩]⟩] : List UTF8ExactStringFieldSearcher).length + 1 ∧
      (duplicate [⟨[⟨1, [97], 0⟩]⟩] 0).1[(duplicate [⟨[⟨1, [97], 0⟩]⟩] 0).2]? =
        ([⟨[⟨1, [97], 0⟩]⟩] : List UTF8ExactStringFieldSearcher)[0]? ∧
      (duplicate [⟨[⟨1, [97], 0⟩]⟩] 0).1[0]? =
        ([⟨[⟨1, [97], 0⟩]⟩] : List UTF8ExactStringFieldSearcher)[0]?) :=
  ⟨by decide, C10_duplicate_copy [⟨[⟨1, [97], 0⟩]⟩] 0 (by decide)⟩

end Vespa
